import Mathlib

/-!
Verification of the window-stacking and focus state engine of
`src/components/desktop/WindowManager.tsx`.

The engine's state is the pair held by `WindowManagerProvider`: the list of
`WindowState` records (`useState<WindowState[]>([])`) and the stacking
counter `topZIndex` (`useState(100)`).  Each registry operation is embedded
as a pure function from that state to a new state; the nested
`setTopZIndex`/`setWindows` updater pattern of the source is expressed as a
single transaction on the `(windows, topZIndex)` pair.  Telemetry
(`Sentry.metrics.increment` calls) is modelled separately as the list of
counter events an operation emits, since it never feeds back into state.
-/

/-- Modelled from the spec: the `WindowState` record type is imported by
`WindowManager.tsx` from `./types`, a file not present in the sources.  Its
fields are the ones the data-model section lists and the source reads and
writes: `id`, display metadata `title`/`icon`, geometry `x`/`y`/`width`/
`height`, the `isMinimized`/`isMaximized`/`isFocused` flags, and the
stacking index `zIndex`. -/
@[ext]
structure WindowState where
  id : String
  title : String
  icon : String
  x : Int
  y : Int
  width : Int
  height : Int
  isMinimized : Bool
  isMaximized : Bool
  isFocused : Bool
  zIndex : Nat
deriving Repr, DecidableEq

/-- The argument of `openWindow`: `Omit<WindowState, 'zIndex' | 'isFocused'>`,
i.e. a `WindowState` without the two fields the registry computes itself. -/
@[ext]
structure WindowSpec where
  id : String
  title : String
  icon : String
  x : Int
  y : Int
  width : Int
  height : Int
  isMinimized : Bool
  isMaximized : Bool
deriving Repr, DecidableEq

/-- The provider's state: the `windows` array and the `topZIndex` counter. -/
@[ext]
structure ManagerState where
  windows : List WindowState
  topZIndex : Nat
deriving Repr, DecidableEq

/-- Initial provider state: `useState<WindowState[]>([])`, `useState(100)`. -/
def init : ManagerState := { windows := [], topZIndex := 100 }

/-- `openWindow` from `WindowManager.tsx`.  Draws `newZ = topZIndex + 1`.
If a record with `window.id` already exists it is brought to front (with
`isMinimized` cleared when it was set) and every other record loses focus;
otherwise a new record built from the spec plus `zIndex = newZ`,
`isFocused = true` is appended after clearing focus on the others. -/
def openWindow (spec : WindowSpec) (s : ManagerState) : ManagerState :=
  let newZ := s.topZIndex + 1
  let existing := s.windows.find? (fun w => decide (w.id = spec.id))
  let windows' :=
    match existing with
    | some ex =>
      if ex.isMinimized then
        s.windows.map (fun w =>
          if w.id = spec.id then
            { w with isMinimized := false, isFocused := true, zIndex := newZ }
          else
            { w with isFocused := false })
      else
        s.windows.map (fun w =>
          if w.id = spec.id then
            { w with isFocused := true, zIndex := newZ }
          else
            { w with isFocused := false })
    | none =>
      s.windows.map (fun w => { w with isFocused := false }) ++
        [{ id := spec.id, title := spec.title, icon := spec.icon,
           x := spec.x, y := spec.y, width := spec.width, height := spec.height,
           isMinimized := spec.isMinimized, isMaximized := spec.isMaximized,
           isFocused := true, zIndex := newZ }]
  { windows := windows', topZIndex := newZ }

/-- `closeWindow`: `prev.filter(w => w.id !== id)`; `topZIndex` untouched. -/
def closeWindow (id : String) (s : ManagerState) : ManagerState :=
  { s with windows := s.windows.filter (fun w => decide (w.id ≠ id)) }

/-- `minimizeWindow`: on the matching record set `isMinimized = true`,
`isFocused = false`; other records and `topZIndex` untouched. -/
def minimizeWindow (id : String) (s : ManagerState) : ManagerState :=
  { s with windows := s.windows.map (fun w =>
      if w.id = id then { w with isMinimized := true, isFocused := false } else w) }

/-- `maximizeWindow`: toggle `isMaximized` on the matching record; other
records and `topZIndex` untouched. -/
def maximizeWindow (id : String) (s : ManagerState) : ManagerState :=
  { s with windows := s.windows.map (fun w =>
      if w.id = id then { w with isMaximized := !w.isMaximized } else w) }

/-- `restoreWindow`: draws `newZ = topZIndex + 1`; the matching record gets
`isMinimized = false`, `isFocused = true`, `zIndex = newZ`; every other
record gets `isFocused = false`. -/
def restoreWindow (id : String) (s : ManagerState) : ManagerState :=
  let newZ := s.topZIndex + 1
  { windows := s.windows.map (fun w =>
      if w.id = id then
        { w with isMinimized := false, isFocused := true, zIndex := newZ }
      else
        { w with isFocused := false }),
    topZIndex := newZ }

/-- `focusWindow`: draws `newZ = topZIndex + 1`; the matching record gets
`isFocused = true`, `zIndex = newZ`; every other record gets
`isFocused = false`. -/
def focusWindow (id : String) (s : ManagerState) : ManagerState :=
  let newZ := s.topZIndex + 1
  { windows := s.windows.map (fun w =>
      if w.id = id then
        { w with isFocused := true, zIndex := newZ }
      else
        { w with isFocused := false }),
    topZIndex := newZ }

/-- `updateWindowPosition`: overwrite `x`, `y` on the matching record. -/
def updateWindowPosition (id : String) (x y : Int) (s : ManagerState) : ManagerState :=
  { s with windows := s.windows.map (fun w =>
      if w.id = id then { w with x := x, y := y } else w) }

/-- `updateWindowSize`: overwrite `width`, `height` on the matching record. -/
def updateWindowSize (id : String) (width height : Int) (s : ManagerState) : ManagerState :=
  { s with windows := s.windows.map (fun w =>
      if w.id = id then { w with width := width, height := height } else w) }

/-- One registry operation, as exposed by the provider's context value. -/
inductive Op where
  | open_ (spec : WindowSpec)
  | close (id : String)
  | minimize (id : String)
  | maximize (id : String)
  | restore (id : String)
  | focus (id : String)
  | reposition (id : String) (x y : Int)
  | resize (id : String) (width height : Int)
deriving Repr, DecidableEq

/-- Apply one operation to the provider state. -/
def step (s : ManagerState) : Op → ManagerState
  | .open_ spec => openWindow spec s
  | .close id => closeWindow id s
  | .minimize id => minimizeWindow id s
  | .maximize id => maximizeWindow id s
  | .restore id => restoreWindow id s
  | .focus id => focusWindow id s
  | .reposition id x y => updateWindowPosition id x y s
  | .resize id width height => updateWindowSize id width height s

/-- Run a sequence of operations from the initial (empty) provider state. -/
def run (ops : List Op) : ManagerState := ops.foldl step init

/-- The `id` argument of an operation (for `open`, the spec's `id`). -/
def Op.targetId : Op → String
  | .open_ spec => spec.id
  | .close id => id
  | .minimize id => id
  | .maximize id => id
  | .restore id => id
  | .focus id => id
  | .reposition id _ _ => id
  | .resize id _ _ => id

/-- JavaScript `String.prototype.split` with a one-character separator,
acting on the character list of the string: `splitCh sep cs` is the list of
(possibly empty) chunks of `cs` between occurrences of `sep`. -/
def splitCh (sep : Char) : List Char → List (List Char)
  | [] => [[]]
  | c :: cs =>
    if c = sep then [] :: splitCh sep cs
    else
      match splitCh sep cs with
      | [] => [[c]]
      | r :: rs => (c :: r) :: rs

/-- The `window_type` tag derivation of the source: `id.split('-')[0]`. -/
def windowType (id : String) : String :=
  String.mk ((splitCh '-' id.data).headD [])

/-- One `Sentry.metrics.increment` call: metric name, `window_type` tag, and
the `action` tag used by the maximize counter. -/
structure CounterEvent where
  name : String
  window_type : String
  action : Option String
deriving Repr, DecidableEq

/-- The `Sentry.metrics.increment` calls a registry operation makes in state
`s`, in source order.  `openWindow` emits an "opened" counter on the create
branch and a "focused" counter on the bring-to-front branch; `closeWindow`,
`minimizeWindow` and `maximizeWindow` emit only when the `id` is present;
`restoreWindow`, `focusWindow` and the geometry updates emit none. -/
def emittedCounters (s : ManagerState) : Op → List CounterEvent
  | .open_ spec =>
    match s.windows.find? (fun w => decide (w.id = spec.id)) with
    | none =>
      [{ name := "desktop.windows.opened", window_type := windowType spec.id,
         action := none }]
    | some _ =>
      [{ name := "desktop.windows.focused", window_type := windowType spec.id,
         action := none }]
  | .close id =>
    match s.windows.find? (fun w => decide (w.id = id)) with
    | none => []
    | some _ =>
      [{ name := "desktop.windows.closed", window_type := windowType id,
         action := none }]
  | .minimize id =>
    match s.windows.find? (fun w => decide (w.id = id)) with
    | none => []
    | some _ =>
      [{ name := "desktop.windows.minimized", window_type := windowType id,
         action := none }]
  | .maximize id =>
    match s.windows.find? (fun w => decide (w.id = id)) with
    | none => []
    | some w =>
      [{ name := "desktop.windows.maximized", window_type := windowType id,
         action := some (if !w.isMaximized then "maximize" else "restore") }]
  | .restore _ => []
  | .focus _ => []
  | .reposition _ _ _ => []
  | .resize _ _ _ => []

/-- The stacking keys an operation assigns to some window's `zIndex` in
state `s`: `openWindow` always assigns `topZIndex + 1` (to the existing or
the new record); `restoreWindow` and `focusWindow` assign it exactly when a
record with the `id` is present; no other operation assigns a key. -/
def opKeys (s : ManagerState) : Op → List Nat
  | .open_ _ => [s.topZIndex + 1]
  | .close _ => []
  | .minimize _ => []
  | .maximize _ => []
  | .restore id =>
    if s.windows.any (fun w => decide (w.id = id)) then [s.topZIndex + 1] else []
  | .focus id =>
    if s.windows.any (fun w => decide (w.id = id)) then [s.topZIndex + 1] else []
  | .reposition _ _ _ => []
  | .resize _ _ _ => []

/-- All stacking keys assigned to some window over a run, in order,
including keys assigned to windows that are closed later. -/
def assignedKeys (s : ManagerState) : List Op → List Nat
  | [] => []
  | op :: ops => opKeys s op ++ assignedKeys (step s op) ops

/-- Number of records with `isFocused = true`. -/
def focusedCount (l : List WindowState) : Nat := l.countP (fun w => w.isFocused)

/-- The ids of the records, in order. -/
def idsOf (l : List WindowState) : List String := l.map (fun w => w.id)

/-- The `zIndex` values of the records, in order. -/
def zIndexesOf (l : List WindowState) : List Nat := l.map (fun w => w.zIndex)

/-- The state invariant maintained by every registry operation: record ids
are pairwise distinct, `zIndex` values are pairwise distinct and bounded by
`topZIndex`, and at most one record is focused. -/
def StateInv (s : ManagerState) : Prop :=
  (idsOf s.windows).Nodup ∧ (zIndexesOf s.windows).Nodup ∧
    (∀ w ∈ s.windows, w.zIndex ≤ s.topZIndex) ∧ focusedCount s.windows ≤ 1

/-- The invariant holds in the initial state. -/
theorem stateInv_init : StateInv init := by
  refine ⟨by simp [init, idsOf], by simp [init, zIndexesOf], by simp [init], ?_⟩
  simp [init, focusedCount]

/-- Mapping a function over the records leaves a projection unchanged when
both branches of the per-record update preserve that projection. -/
theorem proj_update_eq {β : Type} (l : List WindowState) (id : String)
    (f g : WindowState → WindowState) (p : WindowState → β)
    (hf : ∀ w, p (f w) = p w) (hg : ∀ w, p (g w) = p w) :
    (l.map (fun w => if w.id = id then f w else g w)).map p = l.map p := by
  rw [List.map_map]
  refine List.map_congr_left (fun w _ => ?_)
  by_cases hid : w.id = id <;> simp [hid, hf, hg]

/-- With pairwise-distinct ids, at most one record matches a given id. -/
theorem countP_id_le_one (l : List WindowState) (id : String)
    (h : (idsOf l).Nodup) : l.countP (fun w => decide (w.id = id)) ≤ 1 := by
  induction l with
  | nil => simp
  | cons a l ih =>
    simp only [idsOf, List.map_cons, List.nodup_cons] at h
    obtain ⟨ha, hl⟩ := h
    rw [List.countP_cons]
    by_cases hid : a.id = id
    · have hz : l.countP (fun w => decide (w.id = id)) = 0 := by
        rw [List.countP_eq_zero]
        intro w hw
        simp only [decide_eq_true_eq]
        intro hwid
        exact ha (List.mem_map.mpr ⟨w, hw, by rw [hwid, hid]⟩)
      simp [hz, hid]
    · have hih := ih (by simpa [idsOf] using hl)
      simp [hid]
      omega

/-- With pairwise-distinct ids, a present id matches exactly one record. -/
theorem countP_id_eq_one (l : List WindowState) (id : String) (r : WindowState)
    (h : (idsOf l).Nodup) (hr : r ∈ l) (hrid : r.id = id) :
    l.countP (fun w => decide (w.id = id)) = 1 := by
  refine le_antisymm (countP_id_le_one l id h) ?_
  have hpos : 0 < l.countP (fun w => decide (w.id = id)) :=
    List.countP_pos_iff.mpr ⟨r, hr, by simp [hrid]⟩
  omega

/-- After a stacking update (target focused, everyone else unfocused), the
number of focused records equals the number of records matching the id. -/
theorem focusedCount_update (l : List WindowState) (id : String)
    (f g : WindowState → WindowState)
    (hf : ∀ w, (f w).isFocused = true) (hg : ∀ w, (g w).isFocused = false) :
    focusedCount (l.map (fun w => if w.id = id then f w else g w)) =
      l.countP (fun w => decide (w.id = id)) := by
  rw [focusedCount, List.countP_map]
  congr 1
  funext w
  by_cases hid : w.id = id <;> simp [hid, hf, hg, Function.comp]

/-- Clearing focus on every record and appending one focused record leaves
exactly one focused record. -/
theorem focusedCount_clear_append (l : List WindowState) (nw : WindowState)
    (hnw : nw.isFocused = true) :
    focusedCount (l.map (fun w => { w with isFocused := false }) ++ [nw]) = 1 := by
  rw [focusedCount, List.countP_append, List.countP_map]
  simp [hnw, Function.comp]

/-- A per-record update that never creates focus cannot increase the number
of focused records. -/
theorem focusedCount_le_of_imp (l : List WindowState) (f : WindowState → WindowState)
    (hf : ∀ w, (f w).isFocused = true → w.isFocused = true) :
    focusedCount (l.map f) ≤ focusedCount l := by
  rw [focusedCount, focusedCount, List.countP_map]
  refine List.countP_mono_left (fun w _ h => ?_)
  exact hf w (by simpa [Function.comp] using h)

/-- Distinctness of the updated `zIndex` values: the target receives `t + 1`
while every other record keeps its old value `≤ t`. -/
theorem map_choice_nodup (l : List WindowState) (t : Nat) (id : String)
    (hids : (idsOf l).Nodup) (hz : (zIndexesOf l).Nodup)
    (hle : ∀ w ∈ l, w.zIndex ≤ t) :
    (l.map (fun w => if w.id = id then t + 1 else w.zIndex)).Nodup := by
  induction l with
  | nil => simp
  | cons a l ih =>
    simp only [idsOf, zIndexesOf, List.map_cons, List.nodup_cons] at hids hz
    obtain ⟨haid, hids'⟩ := hids
    obtain ⟨haz, hz'⟩ := hz
    have hale : a.zIndex ≤ t := hle a (by simp)
    have hle' : ∀ w ∈ l, w.zIndex ≤ t := fun w hw => hle w (by simp [hw])
    rw [List.map_cons, List.nodup_cons]
    refine ⟨?_, ih (by simpa [idsOf] using hids') (by simpa [zIndexesOf] using hz') hle'⟩
    intro hmem
    rcases List.mem_map.mp hmem with ⟨w, hw, hvw⟩
    by_cases ha : a.id = id
    · rw [if_pos ha] at hvw
      by_cases hwid : w.id = id
      · exact haid (List.mem_map.mpr ⟨w, hw, by rw [hwid, ha]⟩)
      · rw [if_neg hwid] at hvw
        have := hle' w hw
        omega
    · rw [if_neg ha] at hvw
      by_cases hwid : w.id = id
      · rw [if_pos hwid] at hvw
        omega
      · rw [if_neg hwid] at hvw
        exact haz (List.mem_map.mpr ⟨w, hw, hvw⟩)

/-- Invariant preservation for the three stacking updates (`open` on an
existing id, `restore`, `focus`): the matching record is focused and gets
`zIndex = topZIndex + 1`, every other record merely loses focus, and the
counter advances by one. -/
theorem stateInv_stackUpdate (s : ManagerState) (id : String)
    (f : WindowState → WindowState)
    (hfid : ∀ w, (f w).id = w.id) (hff : ∀ w, (f w).isFocused = true)
    (hfz : ∀ w, (f w).zIndex = s.topZIndex + 1)
    (h : StateInv s) :
    StateInv
      { windows := s.windows.map (fun w =>
          if w.id = id then f w else { w with isFocused := false }),
        topZIndex := s.topZIndex + 1 } := by
  obtain ⟨hids, hz, hle, _⟩ := h
  have hids2 : (idsOf (s.windows.map (fun w =>
      if w.id = id then f w else { w with isFocused := false }))).Nodup := by
    simp only [idsOf] at hids ⊢
    rw [proj_update_eq s.windows id f (fun w => { w with isFocused := false })
      (fun w => w.id) hfid (fun w => rfl)]
    exact hids
  have hzeq : zIndexesOf (s.windows.map (fun w =>
      if w.id = id then f w else { w with isFocused := false })) =
      s.windows.map (fun w => if w.id = id then s.topZIndex + 1 else w.zIndex) := by
    simp only [zIndexesOf, List.map_map]
    refine List.map_congr_left (fun w _ => ?_)
    by_cases hid : w.id = id <;> simp [hid, hfz]
  have hz2 : (zIndexesOf (s.windows.map (fun w =>
      if w.id = id then f w else { w with isFocused := false }))).Nodup := by
    rw [hzeq]
    exact map_choice_nodup s.windows s.topZIndex id hids hz hle
  have hle2 : ∀ w' ∈ s.windows.map (fun w =>
      if w.id = id then f w else { w with isFocused := false }),
      w'.zIndex ≤ s.topZIndex + 1 := by
    intro w' hw'
    rcases List.mem_map.mp hw' with ⟨w, hw, rfl⟩
    by_cases hid : w.id = id
    · rw [if_pos hid, hfz]
    · rw [if_neg hid]
      exact Nat.le_succ_of_le (hle w hw)
  have hfoc2 : focusedCount (s.windows.map (fun w =>
      if w.id = id then f w else { w with isFocused := false })) ≤ 1 := by
    rw [focusedCount_update s.windows id f _ hff (fun w => rfl)]
    exact countP_id_le_one s.windows id hids
  exact ⟨hids2, hz2, hle2, hfoc2⟩

/-- Invariant preservation for the non-stacking per-record updates
(`minimize`, `maximize`, `reposition`, `resize`): the update keeps `id` and
`zIndex`, never creates focus, and the counter is untouched. -/
theorem stateInv_frameUpdate (s : ManagerState) (id : String)
    (f : WindowState → WindowState)
    (hfid : ∀ w, (f w).id = w.id) (hfz : ∀ w, (f w).zIndex = w.zIndex)
    (hff : ∀ w, (f w).isFocused = true → w.isFocused = true)
    (h : StateInv s) :
    StateInv
      { windows := s.windows.map (fun w => if w.id = id then f w else w),
        topZIndex := s.topZIndex } := by
  obtain ⟨hids, hz, hle, hfoc⟩ := h
  have hids2 : (idsOf (s.windows.map (fun w => if w.id = id then f w else w))).Nodup := by
    simp only [idsOf] at hids ⊢
    rw [proj_update_eq s.windows id f (fun w => w) (fun w => w.id) hfid (fun w => rfl)]
    exact hids
  have hz2 : (zIndexesOf (s.windows.map (fun w => if w.id = id then f w else w))).Nodup := by
    simp only [zIndexesOf] at hz ⊢
    rw [proj_update_eq s.windows id f (fun w => w) (fun w => w.zIndex) hfz (fun w => rfl)]
    exact hz
  have hle2 : ∀ w' ∈ s.windows.map (fun w => if w.id = id then f w else w),
      w'.zIndex ≤ s.topZIndex := by
    intro w' hw'
    rcases List.mem_map.mp hw' with ⟨w, hw, rfl⟩
    by_cases hid : w.id = id
    · rw [if_pos hid, hfz]
      exact hle w hw
    · rw [if_neg hid]
      exact hle w hw
  have hfoc2 : focusedCount (s.windows.map (fun w => if w.id = id then f w else w)) ≤ 1 := by
    refine le_trans (focusedCount_le_of_imp s.windows _ ?_) hfoc
    intro w hwf
    by_cases hid : w.id = id
    · rw [if_pos hid] at hwf
      exact hff w hwf
    · rwa [if_neg hid] at hwf
  exact ⟨hids2, hz2, hle2, hfoc2⟩

/-- `openWindow` preserves the state invariant. -/
theorem stateInv_openWindow (spec : WindowSpec) (s : ManagerState) (h : StateInv s) :
    StateInv (openWindow spec s) := by
  cases hf : s.windows.find? (fun w => decide (w.id = spec.id)) with
  | some ex =>
    by_cases hmin : ex.isMinimized = true
    · have he : openWindow spec s =
          { windows := s.windows.map (fun w =>
              if w.id = spec.id then
                { w with isMinimized := false, isFocused := true, zIndex := s.topZIndex + 1 }
              else { w with isFocused := false }),
            topZIndex := s.topZIndex + 1 } := by
        simp [openWindow, hf, hmin]
      rw [he]
      exact stateInv_stackUpdate s spec.id
        (fun w => { w with isMinimized := false, isFocused := true, zIndex := s.topZIndex + 1 })
        (fun w => rfl) (fun w => rfl) (fun w => rfl) h
    · have hmin' : ex.isMinimized = false := by simpa using hmin
      have he : openWindow spec s =
          { windows := s.windows.map (fun w =>
              if w.id = spec.id then
                { w with isFocused := true, zIndex := s.topZIndex + 1 }
              else { w with isFocused := false }),
            topZIndex := s.topZIndex + 1 } := by
        simp [openWindow, hf, hmin']
      rw [he]
      exact stateInv_stackUpdate s spec.id
        (fun w => { w with isFocused := true, zIndex := s.topZIndex + 1 })
        (fun w => rfl) (fun w => rfl) (fun w => rfl) h
  | none =>
    obtain ⟨hids, hz, hle, hfoc⟩ := h
    have habs : ∀ w ∈ s.windows, w.id ≠ spec.id := by
      intro w hw
      have := List.find?_eq_none.mp hf w hw
      simpa using this
    have he : openWindow spec s =
        { windows :=
            s.windows.map (fun w => { w with isFocused := false }) ++
              [{ id := spec.id, title := spec.title, icon := spec.icon,
                 x := spec.x, y := spec.y, width := spec.width, height := spec.height,
                 isMinimized := spec.isMinimized, isMaximized := spec.isMaximized,
                 isFocused := true, zIndex := s.topZIndex + 1 }],
          topZIndex := s.topZIndex + 1 } := by
      simp [openWindow, hf]
    rw [he]
    refine ⟨?_, ?_, ?_, ?_⟩
    · simp only [idsOf, List.map_append, List.map_map]
      have hcomp : s.windows.map ((fun w => w.id) ∘ (fun w => { w with isFocused := false })) =
          s.windows.map (fun w => w.id) := List.map_congr_left (fun a _ => rfl)
      rw [hcomp, List.nodup_append]
      refine ⟨by simpa [idsOf] using hids, by simp, ?_⟩
      intro x hx hx2
      simp only [List.map_cons, List.map_nil, List.mem_cons, List.not_mem_nil, or_false] at hx2
      simp only [List.mem_map] at hx
      obtain ⟨w, hw, hwx⟩ := hx
      exact habs w hw (by rw [hwx, hx2])
    · simp only [zIndexesOf, List.map_append, List.map_map]
      have hcomp : s.windows.map ((fun w => w.zIndex) ∘ (fun w => { w with isFocused := false })) =
          s.windows.map (fun w => w.zIndex) := List.map_congr_left (fun a _ => rfl)
      rw [hcomp, List.nodup_append]
      refine ⟨by simpa [zIndexesOf] using hz, by simp, ?_⟩
      intro x hx hx2
      simp only [List.map_cons, List.map_nil, List.mem_cons, List.not_mem_nil, or_false] at hx2
      simp only [List.mem_map] at hx
      obtain ⟨w, hw, hwx⟩ := hx
      have := hle w hw
      omega
    · intro w' hw'
      rcases List.mem_append.mp hw' with hw' | hw'
      · rcases List.mem_map.mp hw' with ⟨w, hw, rfl⟩
        exact Nat.le_succ_of_le (hle w hw)
      · simp only [List.mem_singleton] at hw'
        subst hw'
        exact Nat.le_refl _
    · rw [focusedCount_clear_append s.windows _ rfl]

/-- `closeWindow` preserves the state invariant. -/
theorem stateInv_closeWindow (id : String) (s : ManagerState) (h : StateInv s) :
    StateInv (closeWindow id s) := by
  obtain ⟨hids, hz, hle, hfoc⟩ := h
  have hsub : (s.windows.filter (fun w => decide (w.id ≠ id))).Sublist s.windows :=
    List.filter_sublist s.windows
  refine ⟨?_, ?_, ?_, ?_⟩
  · show ((s.windows.filter (fun w => decide (w.id ≠ id))).map (fun w => w.id)).Nodup
    exact List.Nodup.sublist (hsub.map (fun w => w.id)) hids
  · show ((s.windows.filter (fun w => decide (w.id ≠ id))).map (fun w => w.zIndex)).Nodup
    exact List.Nodup.sublist (hsub.map (fun w => w.zIndex)) hz
  · intro w hw
    exact hle w (hsub.subset hw)
  · exact le_trans (hsub.countP_le _) hfoc

/-- `minimizeWindow` preserves the state invariant. -/
theorem stateInv_minimizeWindow (id : String) (s : ManagerState) (h : StateInv s) :
    StateInv (minimizeWindow id s) :=
  stateInv_frameUpdate s id (fun w => { w with isMinimized := true, isFocused := false })
    (fun w => rfl) (fun w => rfl) (fun w hw => by simp at hw) h

/-- `maximizeWindow` preserves the state invariant. -/
theorem stateInv_maximizeWindow (id : String) (s : ManagerState) (h : StateInv s) :
    StateInv (maximizeWindow id s) :=
  stateInv_frameUpdate s id (fun w => { w with isMaximized := !w.isMaximized })
    (fun w => rfl) (fun w => rfl) (fun w hw => hw) h

/-- `restoreWindow` preserves the state invariant. -/
theorem stateInv_restoreWindow (id : String) (s : ManagerState) (h : StateInv s) :
    StateInv (restoreWindow id s) :=
  stateInv_stackUpdate s id
    (fun w => { w with isMinimized := false, isFocused := true, zIndex := s.topZIndex + 1 })
    (fun w => rfl) (fun w => rfl) (fun w => rfl) h

/-- `focusWindow` preserves the state invariant. -/
theorem stateInv_focusWindow (id : String) (s : ManagerState) (h : StateInv s) :
    StateInv (focusWindow id s) :=
  stateInv_stackUpdate s id
    (fun w => { w with isFocused := true, zIndex := s.topZIndex + 1 })
    (fun w => rfl) (fun w => rfl) (fun w => rfl) h

/-- `updateWindowPosition` preserves the state invariant. -/
theorem stateInv_updatePosition (id : String) (x y : Int) (s : ManagerState)
    (h : StateInv s) : StateInv (updateWindowPosition id x y s) :=
  stateInv_frameUpdate s id (fun w => { w with x := x, y := y })
    (fun w => rfl) (fun w => rfl) (fun w hw => hw) h

/-- `updateWindowSize` preserves the state invariant. -/
theorem stateInv_updateSize (id : String) (width height : Int) (s : ManagerState)
    (h : StateInv s) : StateInv (updateWindowSize id width height s) :=
  stateInv_frameUpdate s id (fun w => { w with width := width, height := height })
    (fun w => rfl) (fun w => rfl) (fun w hw => hw) h

/-- Every operation preserves the state invariant. -/
theorem stateInv_step (s : ManagerState) (op : Op) (h : StateInv s) :
    StateInv (step s op) := by
  cases op with
  | open_ spec => exact stateInv_openWindow spec s h
  | close id => exact stateInv_closeWindow id s h
  | minimize id => exact stateInv_minimizeWindow id s h
  | maximize id => exact stateInv_maximizeWindow id s h
  | restore id => exact stateInv_restoreWindow id s h
  | focus id => exact stateInv_focusWindow id s h
  | reposition id x y => exact stateInv_updatePosition id x y s h
  | resize id width height => exact stateInv_updateSize id width height s h

/-- The invariant holds along any fold of operations. -/
theorem stateInv_foldl (ops : List Op) (s : ManagerState) (h : StateInv s) :
    StateInv (List.foldl step s ops) := by
  induction ops generalizing s with
  | nil => exact h
  | cons op ops ih => exact ih (step s op) (stateInv_step s op h)

/-- Every reachable state satisfies the invariant. -/
theorem stateInv_run (ops : List Op) : StateInv (run ops) :=
  stateInv_foldl ops init stateInv_init

/-- `openWindow` advances the counter by exactly one. -/
theorem openWindow_top (spec : WindowSpec) (s : ManagerState) :
    (openWindow spec s).topZIndex = s.topZIndex + 1 := rfl

/-- `restoreWindow` advances the counter by exactly one. -/
theorem restoreWindow_top (id : String) (s : ManagerState) :
    (restoreWindow id s).topZIndex = s.topZIndex + 1 := rfl

/-- `focusWindow` advances the counter by exactly one. -/
theorem focusWindow_top (id : String) (s : ManagerState) :
    (focusWindow id s).topZIndex = s.topZIndex + 1 := rfl

/-- No operation ever decreases the counter. -/
theorem step_top_ge (s : ManagerState) (op : Op) : s.topZIndex ≤ (step s op).topZIndex := by
  cases op with
  | open_ spec => rw [step, openWindow_top]; omega
  | close id => exact Nat.le_refl _
  | minimize id => exact Nat.le_refl _
  | maximize id => exact Nat.le_refl _
  | restore id => rw [step, restoreWindow_top]; omega
  | focus id => rw [step, focusWindow_top]; omega
  | reposition id x y => exact Nat.le_refl _
  | resize id width height => exact Nat.le_refl _

/-- The counter is monotone along any fold of operations. -/
theorem foldl_top_ge (ops : List Op) (s : ManagerState) :
    s.topZIndex ≤ (List.foldl step s ops).topZIndex := by
  induction ops generalizing s with
  | nil => exact Nat.le_refl _
  | cons op ops ih => exact le_trans (step_top_ge s op) (ih (step s op))

/-- The keys an operation assigns: none, or exactly the next counter value. -/
theorem opKeys_eq (s : ManagerState) (op : Op) :
    opKeys s op = [] ∨ opKeys s op = [s.topZIndex + 1] := by
  cases op with
  | open_ spec => exact Or.inr rfl
  | close id => exact Or.inl rfl
  | minimize id => exact Or.inl rfl
  | maximize id => exact Or.inl rfl
  | restore id =>
    by_cases h : s.windows.any (fun w => decide (w.id = id)) = true
    · exact Or.inr (by simp [opKeys, h])
    · exact Or.inl (by simp [opKeys, h])
  | focus id =>
    by_cases h : s.windows.any (fun w => decide (w.id = id)) = true
    · exact Or.inr (by simp [opKeys, h])
    · exact Or.inl (by simp [opKeys, h])
  | reposition id x y => exact Or.inl rfl
  | resize id width height => exact Or.inl rfl

/-- Every key assigned by an operation is the freshly drawn counter value. -/
theorem mem_opKeys (s : ManagerState) (op : Op) (k : Nat) (hk : k ∈ opKeys s op) :
    k = s.topZIndex + 1 := by
  rcases opKeys_eq s op with he | he <;> rw [he] at hk
  · cases hk
  · simpa using hk

/-- Every key assigned by an operation is at most the counter after it. -/
theorem mem_opKeys_le_step (s : ManagerState) (op : Op) (k : Nat) (hk : k ∈ opKeys s op) :
    k ≤ (step s op).topZIndex := by
  have hk' := mem_opKeys s op k hk
  subst hk'
  cases op with
  | open_ spec => rw [step, openWindow_top]
  | close id => simp [opKeys] at hk
  | minimize id => simp [opKeys] at hk
  | maximize id => simp [opKeys] at hk
  | restore id => rw [step, restoreWindow_top]
  | focus id => rw [step, focusWindow_top]
  | reposition id x y => simp [opKeys] at hk
  | resize id width height => simp [opKeys] at hk

/-- Every key assigned along a run is strictly above the starting counter
and at most the final counter. -/
theorem assignedKeys_bounds (ops : List Op) (s : ManagerState) (k : Nat)
    (hk : k ∈ assignedKeys s ops) :
    s.topZIndex < k ∧ k ≤ (List.foldl step s ops).topZIndex := by
  induction ops generalizing s with
  | nil => simp [assignedKeys] at hk
  | cons op ops ih =>
    simp only [assignedKeys, List.mem_append] at hk
    rw [List.foldl_cons]
    rcases hk with hk | hk
    · have h1 := mem_opKeys s op k hk
      have h2 := mem_opKeys_le_step s op k hk
      exact ⟨by omega, le_trans h2 (foldl_top_ge ops (step s op))⟩
    · have h3 := ih (step s op) hk
      exact ⟨lt_of_le_of_lt (step_top_ge s op) h3.1, h3.2⟩

/-- Keys are assigned in strictly increasing order along any run, so no
stacking key is ever assigned twice. -/
theorem assignedKeys_pairwise (ops : List Op) (s : ManagerState) :
    (assignedKeys s ops).Pairwise (· < ·) := by
  induction ops generalizing s with
  | nil => simp [assignedKeys]
  | cons op ops ih =>
    rw [assignedKeys]
    refine List.pairwise_append.mpr ⟨?_, ih (step s op), ?_⟩
    · rcases opKeys_eq s op with he | he <;> rw [he] <;> simp
    · intro a ha b hb
      have h1 := mem_opKeys_le_step s op a ha
      have h2 := (assignedKeys_bounds ops (step s op) b hb).1
      omega

/-- With pairwise-distinct ids, `id` determines the record. -/
theorem id_inj_of_nodup (l : List WindowState) (h : (idsOf l).Nodup) :
    ∀ x ∈ l, ∀ y ∈ l, x.id = y.id → x = y := by
  have h' : (l.map (fun w => w.id)).Nodup := by simpa [idsOf] using h
  exact fun x hx y hy hxy => List.inj_on_of_nodup_map h' hx hy hxy

/-- On a state whose ids are distinct and contain `spec.id`, `openWindow`
takes the bring-to-front path: the target gets `isMinimized = false`,
`isFocused = true` and the fresh key, everyone else only loses focus, and
the counter advances by one. -/
theorem openWindow_existing (spec : WindowSpec) (s : ManagerState) (r : WindowState)
    (hids : (idsOf s.windows).Nodup) (hr : r ∈ s.windows) (hrid : r.id = spec.id) :
    (openWindow spec s).topZIndex = s.topZIndex + 1 ∧
    (openWindow spec s).windows = s.windows.map (fun w =>
      if w.id = spec.id then
        { w with isMinimized := false, isFocused := true, zIndex := s.topZIndex + 1 }
      else { w with isFocused := false }) := by
  refine ⟨rfl, ?_⟩
  have hfind : ∃ ex, s.windows.find? (fun w => decide (w.id = spec.id)) = some ex := by
    cases hf : s.windows.find? (fun w => decide (w.id = spec.id)) with
    | some ex => exact ⟨ex, rfl⟩
    | none =>
      have := List.find?_eq_none.mp hf r hr
      simp [hrid] at this
  obtain ⟨ex, hf⟩ := hfind
  have hexid : ex.id = spec.id := by
    have := List.find?_some hf
    simpa using this
  have hexmem : ex ∈ s.windows := List.mem_of_find?_eq_some hf
  by_cases hmin : ex.isMinimized = true
  · simp [openWindow, hf, hmin]
  · have hmin' : ex.isMinimized = false := by simpa using hmin
    have he : (openWindow spec s).windows = s.windows.map (fun w =>
        if w.id = spec.id then { w with isFocused := true, zIndex := s.topZIndex + 1 }
        else { w with isFocused := false }) := by
      simp [openWindow, hf, hmin']
    rw [he]
    refine List.map_congr_left (fun w hw => ?_)
    by_cases hwid : w.id = spec.id
    · rw [if_pos hwid, if_pos hwid]
      have hw_ex : w = ex :=
        id_inj_of_nodup s.windows hids w hw ex hexmem (by rw [hwid, hexid])
      have hwmin : w.isMinimized = false := by rw [hw_ex]; exact hmin'
      cases w
      simp_all
    · rw [if_neg hwid, if_neg hwid]

/-- `openWindow` always leaves exactly one focused record when ids are
pairwise distinct. -/
theorem focusedCount_openWindow (spec : WindowSpec) (s : ManagerState)
    (hids : (idsOf s.windows).Nodup) :
    focusedCount (openWindow spec s).windows = 1 := by
  cases hf : s.windows.find? (fun w => decide (w.id = spec.id)) with
  | none =>
    have he : (openWindow spec s).windows =
        s.windows.map (fun w => { w with isFocused := false }) ++
          [{ id := spec.id, title := spec.title, icon := spec.icon,
             x := spec.x, y := spec.y, width := spec.width, height := spec.height,
             isMinimized := spec.isMinimized, isMaximized := spec.isMaximized,
             isFocused := true, zIndex := s.topZIndex + 1 }] := by
      simp [openWindow, hf]
    rw [he]
    exact focusedCount_clear_append s.windows _ rfl
  | some ex =>
    have hexid : ex.id = spec.id := by
      have := List.find?_some hf
      simpa using this
    have hexmem : ex ∈ s.windows := List.mem_of_find?_eq_some hf
    by_cases hmin : ex.isMinimized = true
    · have he : (openWindow spec s).windows = s.windows.map (fun w =>
          if w.id = spec.id then
            { w with isMinimized := false, isFocused := true, zIndex := s.topZIndex + 1 }
          else { w with isFocused := false }) := by
        simp [openWindow, hf, hmin]
      rw [he, focusedCount_update s.windows spec.id _ _ (fun w => rfl) (fun w => rfl)]
      exact countP_id_eq_one s.windows spec.id ex hids hexmem hexid
    · have hmin' : ex.isMinimized = false := by simpa using hmin
      have he : (openWindow spec s).windows = s.windows.map (fun w =>
          if w.id = spec.id then { w with isFocused := true, zIndex := s.topZIndex + 1 }
          else { w with isFocused := false }) := by
        simp [openWindow, hf, hmin']
      rw [he, focusedCount_update s.windows spec.id _ _ (fun w => rfl) (fun w => rfl)]
      exact countP_id_eq_one s.windows spec.id ex hids hexmem hexid

/-- `focusWindow` on a present id leaves exactly one focused record. -/
theorem focusedCount_focusWindow (id : String) (s : ManagerState) (r : WindowState)
    (hids : (idsOf s.windows).Nodup) (hr : r ∈ s.windows) (hrid : r.id = id) :
    focusedCount (focusWindow id s).windows = 1 := by
  show focusedCount (s.windows.map (fun w =>
    if w.id = id then { w with isFocused := true, zIndex := s.topZIndex + 1 }
    else { w with isFocused := false })) = 1
  rw [focusedCount_update s.windows id _ _ (fun w => rfl) (fun w => rfl)]
  exact countP_id_eq_one s.windows id r hids hr hrid

/-- `restoreWindow` on a present id leaves exactly one focused record. -/
theorem focusedCount_restoreWindow (id : String) (s : ManagerState) (r : WindowState)
    (hids : (idsOf s.windows).Nodup) (hr : r ∈ s.windows) (hrid : r.id = id) :
    focusedCount (restoreWindow id s).windows = 1 := by
  show focusedCount (s.windows.map (fun w =>
    if w.id = id then
      { w with isMinimized := false, isFocused := true, zIndex := s.topZIndex + 1 }
    else { w with isFocused := false })) = 1
  rw [focusedCount_update s.windows id _ _ (fun w => rfl) (fun w => rfl)]
  exact countP_id_eq_one s.windows id r hids hr hrid

/-- `focusWindow` does not change the list of ids. -/
theorem idsOf_focusWindow (id : String) (s : ManagerState) :
    idsOf (focusWindow id s).windows = idsOf s.windows := by
  simp only [idsOf, focusWindow]
  exact proj_update_eq s.windows id
    (fun w => { w with isFocused := true, zIndex := s.topZIndex + 1 })
    (fun w => { w with isFocused := false })
    (fun w => w.id) (fun w => rfl) (fun w => rfl)

/-- A filter that matches no element keeps the whole list. -/
theorem filter_ne_of_not_mem (l : List WindowState) (id : String)
    (h : ∀ w ∈ l, w.id ≠ id) : l.filter (fun w => decide (w.id ≠ id)) = l :=
  List.filter_eq_self.mpr (fun w hw => by simpa using h w hw)

/-- With pairwise-distinct ids, removing a present id drops exactly one
record. -/
theorem close_length (l : List WindowState) (id : String) (r : WindowState)
    (hids : (idsOf l).Nodup) (hr : r ∈ l) (hrid : r.id = id) :
    (l.filter (fun w => decide (w.id ≠ id))).length + 1 = l.length := by
  induction l with
  | nil => cases hr
  | cons a l ih =>
    simp only [idsOf, List.map_cons, List.nodup_cons] at hids
    obtain ⟨ha, hl⟩ := hids
    rw [List.filter_cons]
    by_cases haid : a.id = id
    · have habs : ∀ w ∈ l, w.id ≠ id := by
        intro w hw hwc
        exact ha (List.mem_map.mpr ⟨w, hw, by rw [hwc, haid]⟩)
      rw [if_neg (by simp [haid]), filter_ne_of_not_mem l id habs]
      simp
    · rcases List.mem_cons.mp hr with heq | hrl
      · exact absurd (heq ▸ hrid) haid
      · have hih := ih (by simpa [idsOf] using hl) hrl
        rw [if_pos (by simp [haid])]
        simp only [List.length_cons]
        omega

/-- `splitCh` always yields at least one chunk. -/
theorem splitCh_ne_nil (sep : Char) (cs : List Char) : splitCh sep cs ≠ [] := by
  cases cs with
  | nil => simp [splitCh]
  | cons c cs =>
    simp only [splitCh]
    split
    · simp
    · split <;> simp

/-- The first chunk of the split is the longest separator-free leading
segment of the string. -/
theorem splitCh_headD (sep : Char) (cs : List Char) :
    (splitCh sep cs).headD [] = cs.takeWhile (fun c => decide (c ≠ sep)) := by
  induction cs with
  | nil => simp [splitCh]
  | cons c cs ih =>
    by_cases h : c = sep
    · simp [splitCh, List.takeWhile_cons, h]
    · rw [List.takeWhile_cons]
      rw [if_pos (by simp [h])]
      simp only [splitCh, if_neg h]
      cases hs : splitCh sep cs with
      | nil => exact absurd hs (splitCh_ne_nil sep cs)
      | cons r rs =>
        rw [hs] at ih
        simp only [List.headD_cons] at ih ⊢
        rw [ih]

/-- A separator-free string is its own leading segment. -/
theorem takeWhile_eq_self_of_no_sep (sep : Char) (cs : List Char)
    (h : ∀ c ∈ cs, c ≠ sep) : cs.takeWhile (fun c => decide (c ≠ sep)) = cs := by
  induction cs with
  | nil => rfl
  | cons c cs ih =>
    rw [List.takeWhile_cons, if_pos (by simp [h c (by simp)])]
    rw [ih (fun b hb => h b (by simp [hb]))]

/-- `id.split('-')[0]` is the substring of `id` before the first `-`. -/
theorem windowType_eq_takeWhile (id : String) :
    windowType id = String.mk (id.data.takeWhile (fun c => decide (c ≠ '-'))) := by
  rw [windowType, splitCh_headD]

/-- Pointwise relation between a list and its map. -/
theorem forall₂_map_self {R : WindowState → WindowState → Prop}
    (l : List WindowState) (f : WindowState → WindowState)
    (h : ∀ a ∈ l, R a (f a)) : List.Forall₂ R l (l.map f) := by
  induction l with
  | nil => exact List.Forall₂.nil
  | cons a l ih =>
    exact List.Forall₂.cons (h a (by simp)) (ih (fun b hb => h b (by simp [hb])))

/-- Concrete spec used by witnesses: the "notes-1" window of the spec's
scenario walkthrough. -/
def specNotes : WindowSpec :=
  { id := "notes-1", title := "Notes", icon := "notes", x := 0, y := 0,
    width := 400, height := 300, isMinimized := false, isMaximized := false }

/-- Concrete focused record used by witnesses. -/
def wNotes : WindowState :=
  { id := "notes-1", title := "Notes", icon := "notes", x := 0, y := 0,
    width := 400, height := 300, isMinimized := false, isMaximized := false,
    isFocused := true, zIndex := 101 }

/-- Concrete unfocused record used by witnesses. -/
def wCalc : WindowState :=
  { id := "calc-1", title := "Calculator", icon := "calc", x := 50, y := 40,
    width := 300, height := 200, isMinimized := false, isMaximized := true,
    isFocused := false, zIndex := 102 }

/-- Concrete two-window state used by witnesses. -/
def sTwo : ManagerState := { windows := [wNotes, wCalc], topZIndex := 105 }

/-- C1: after every sequence of registry operations (open, close, minimize,
maximize, restore, focus, reposition, resize) starting from the empty
registry, at most one record in the registry has `isFocused = true`. -/
theorem focus_exclusivity (ops : List Op) : focusedCount (run ops).windows ≤ 1 :=
  (stateInv_run ops).2.2.2

/-- C2: after every sequence of registry operations from the empty registry,
the present `zIndex` values are pairwise distinct, the top ordering key is at
least every key assigned during the run (including keys of windows closed
since), and the assigned keys are strictly increasing — so closing and
reopening an id never reuses a previously assigned `zIndex`. -/
theorem zIndex_distinct_and_monotone (ops : List Op) :
    (zIndexesOf (run ops).windows).Nodup ∧
      (∀ k ∈ assignedKeys init ops, k ≤ (run ops).topZIndex) ∧
      (assignedKeys init ops).Pairwise (· < ·) :=
  ⟨(stateInv_run ops).2.1,
    fun k hk => (assignedKeys_bounds ops init k hk).2,
    assignedKeys_pairwise ops init⟩

/-- Witness for C2 at a concrete run of one `open`. -/
theorem zIndex_distinct_and_monotone_witness :
    101 ∈ assignedKeys init [Op.open_ specNotes] ∧
      101 ≤ (run [Op.open_ specNotes]).topZIndex :=
  ⟨by decide, (zIndex_distinct_and_monotone [Op.open_ specNotes]).2.1 101 (by decide)⟩

/-- C3 as stated is false: `focusWindow` on an id that is absent from the
registry is not a no-op — it advances the top ordering key (from 101 to 102
here) and clears `isFocused` on the sole record, changing the collection. -/
theorem focus_absent_id_not_noop :
    (∀ w ∈ (run [Op.open_ specNotes]).windows, w.id ≠ "calc-1") ∧
    (run [Op.open_ specNotes]).topZIndex = 101 ∧
    (focusWindow "calc-1" (run [Op.open_ specNotes])).topZIndex = 102 ∧
    (focusWindow "calc-1" (run [Op.open_ specNotes])).windows ≠
      (run [Op.open_ specNotes]).windows := by
  exact ⟨by decide, by decide, by decide, by decide⟩

/-- C3 amended: for an id absent from the registry, `focus` and `restore`
still draw a fresh ordering key (advancing the top key by one) and set
`isFocused = false` on every record, leaving every other field of every
record unchanged. -/
theorem focus_restore_absent_id_effect (s : ManagerState) (id : String)
    (h : ∀ w ∈ s.windows, w.id ≠ id) :
    (focusWindow id s).topZIndex = s.topZIndex + 1 ∧
    (focusWindow id s).windows = s.windows.map (fun w => { w with isFocused := false }) ∧
    (restoreWindow id s).topZIndex = s.topZIndex + 1 ∧
    (restoreWindow id s).windows = s.windows.map (fun w => { w with isFocused := false }) := by
  refine ⟨rfl, ?_, rfl, ?_⟩
  · simp only [focusWindow]
    refine List.map_congr_left (fun w hw => ?_)
    rw [if_neg (h w hw)]
  · simp only [restoreWindow]
    refine List.map_congr_left (fun w hw => ?_)
    rw [if_neg (h w hw)]

/-- Witness for the amended C3 at a concrete state and absent id. -/
theorem focus_restore_absent_id_effect_witness :
    (∀ w ∈ sTwo.windows, w.id ≠ "term-1") ∧
    ((focusWindow "term-1" sTwo).topZIndex = sTwo.topZIndex + 1 ∧
      (focusWindow "term-1" sTwo).windows =
        sTwo.windows.map (fun w => { w with isFocused := false }) ∧
      (restoreWindow "term-1" sTwo).topZIndex = sTwo.topZIndex + 1 ∧
      (restoreWindow "term-1" sTwo).windows =
        sTwo.windows.map (fun w => { w with isFocused := false })) :=
  ⟨by decide, focus_restore_absent_id_effect sTwo "term-1" (by decide)⟩

/-- C4 as stated is false: opening "notes-1" and then minimizing it leaves a
registry that was never emptied and is non-empty, yet has zero focused
records. -/
theorem minimize_leaves_zero_focused :
    (run [Op.open_ specNotes]).windows ≠ [] ∧
    (run [Op.open_ specNotes, Op.minimize "notes-1"]).windows ≠ [] ∧
    focusedCount (run [Op.open_ specNotes, Op.minimize "notes-1"]).windows = 0 := by
  exact ⟨by decide, by decide, by decide⟩

/-- C4 amended: no reachable state ever has two focused records, and every
stacking operation (`open`, and `focus`/`restore` on a present id) leaves
exactly one focused record; `minimize` and `close`, however, may leave a
non-empty registry with zero focused records. -/
theorem stacking_ops_leave_one_focused (ops : List Op) :
    focusedCount (run ops).windows ≤ 1 ∧
    (∀ spec : WindowSpec, focusedCount (openWindow spec (run ops)).windows = 1) ∧
    (∀ id : String, (∃ r ∈ (run ops).windows, r.id = id) →
      focusedCount (focusWindow id (run ops)).windows = 1 ∧
      focusedCount (restoreWindow id (run ops)).windows = 1) := by
  have hInv := stateInv_run ops
  refine ⟨hInv.2.2.2, ?_, ?_⟩
  · intro spec
    exact focusedCount_openWindow spec (run ops) hInv.1
  · intro id h
    obtain ⟨r, hr, hrid⟩ := h
    exact ⟨focusedCount_focusWindow id (run ops) r hInv.1 hr hrid,
      focusedCount_restoreWindow id (run ops) r hInv.1 hr hrid⟩

/-- Witness for the amended C4 at a concrete run and present id. -/
theorem stacking_ops_leave_one_focused_witness :
    (∃ r ∈ (run [Op.open_ specNotes]).windows, r.id = "notes-1") ∧
    focusedCount (focusWindow "notes-1" (run [Op.open_ specNotes])).windows = 1 :=
  ⟨by decide,
    ((stacking_ops_leave_one_focused [Op.open_ specNotes]).2.2 "notes-1" (by decide)).1⟩

/-- C5: `open(spec)` on a registry whose ids are distinct and contain
`spec.id` brings the existing record to front: that record gets
`isFocused = true`, a freshly allocated `zIndex`, and `isMinimized` cleared;
every other record only loses focus; the record's `x`, `y`, `width`,
`height`, `title` and `icon` are kept and spec's geometry is ignored. -/
theorem open_on_existing_id_refocuses (spec : WindowSpec) (s : ManagerState)
    (r : WindowState) (hids : (idsOf s.windows).Nodup) (hr : r ∈ s.windows)
    (hrid : r.id = spec.id) :
    (openWindow spec s).topZIndex = s.topZIndex + 1 ∧
    (openWindow spec s).windows = s.windows.map (fun w =>
      if w.id = spec.id then
        { w with isMinimized := false, isFocused := true, zIndex := s.topZIndex + 1 }
      else { w with isFocused := false }) :=
  openWindow_existing spec s r hids hr hrid

/-- Witness for C5 at a concrete two-window state. -/
theorem open_on_existing_id_refocuses_witness :
    ((idsOf sTwo.windows).Nodup ∧ wNotes ∈ sTwo.windows ∧ wNotes.id = specNotes.id) ∧
    ((openWindow specNotes sTwo).topZIndex = sTwo.topZIndex + 1 ∧
      (openWindow specNotes sTwo).windows = sTwo.windows.map (fun w =>
        if w.id = specNotes.id then
          { w with isMinimized := false, isFocused := true, zIndex := sTwo.topZIndex + 1 }
        else { w with isFocused := false })) :=
  ⟨⟨by decide, by decide, by decide⟩,
    open_on_existing_id_refocuses specNotes sTwo wNotes (by decide) (by decide) (by decide)⟩

/-- C6: the counter is seeded at 100; `open`, `restore` and `focus` each
advance it by exactly one and hand the fresh value to their target; the
first allocation on a fresh registry is 101; focusing an already-focused
window twice keeps it the sole focused record while drawing a fresh,
strictly larger `zIndex` on each call. -/
theorem allocator_seed_and_increment (s : ManagerState) (id : String) (r : WindowState)
    (hids : (idsOf s.windows).Nodup) (hr : r ∈ s.windows) (hrid : r.id = id)
    (hfoc : r.isFocused = true) :
    init.topZIndex = 100 ∧
    (∀ (sp : WindowSpec) (st : ManagerState),
      (openWindow sp st).topZIndex = st.topZIndex + 1) ∧
    (∀ (i : String) (st : ManagerState),
      (restoreWindow i st).topZIndex = st.topZIndex + 1) ∧
    (∀ (i : String) (st : ManagerState),
      (focusWindow i st).topZIndex = st.topZIndex + 1) ∧
    (∀ sp : WindowSpec, (openWindow sp init).windows =
      [{ id := sp.id, title := sp.title, icon := sp.icon, x := sp.x, y := sp.y,
         width := sp.width, height := sp.height, isMinimized := sp.isMinimized,
         isMaximized := sp.isMaximized, isFocused := true, zIndex := 101 }]) ∧
    (∃ w ∈ (restoreWindow id s).windows, w.id = id ∧ w.isFocused = true ∧
      w.zIndex = s.topZIndex + 1) ∧
    (∃ w ∈ (focusWindow id s).windows, w.id = id ∧ w.isFocused = true ∧
      w.zIndex = s.topZIndex + 1) ∧
    focusedCount (focusWindow id s).windows = 1 ∧
    (∃ w ∈ (focusWindow id (focusWindow id s)).windows, w.id = id ∧ w.isFocused = true ∧
      w.zIndex = s.topZIndex + 2) ∧
    focusedCount (focusWindow id (focusWindow id s)).windows = 1 ∧
    s.topZIndex + 1 < s.topZIndex + 2 := by
  have hids1 : (idsOf (focusWindow id s).windows).Nodup := by
    rw [idsOf_focusWindow]
    exact hids
  have hr1 : (fun w : WindowState =>
      if w.id = id then { w with isFocused := true, zIndex := s.topZIndex + 1 }
      else { w with isFocused := false }) r ∈ (focusWindow id s).windows :=
    List.mem_map_of_mem _ hr
  have hrid1 : ((fun w : WindowState =>
      if w.id = id then { w with isFocused := true, zIndex := s.topZIndex + 1 }
      else { w with isFocused := false }) r).id = id := by
    simp [hrid]
  refine ⟨rfl, fun sp st => rfl, fun i st => rfl, fun i st => rfl, fun sp => rfl,
    ?_, ?_, ?_, ?_, ?_, by omega⟩
  · refine ⟨_, List.mem_map_of_mem _ hr, ?_⟩
    simp [hrid]
  · refine ⟨_, List.mem_map_of_mem _ hr, ?_⟩
    simp [hrid]
  · exact focusedCount_focusWindow id s r hids hr hrid
  · refine ⟨_, List.mem_map_of_mem _ (List.mem_map_of_mem _ hr), ?_, ?_, ?_⟩
    · rw [if_pos hrid1]
      exact hrid1
    · rw [if_pos hrid1]
    · rw [if_pos hrid1]
      exact rfl
  · exact focusedCount_focusWindow id (focusWindow id s) _ hids1 hr1 hrid1

/-- Witness for C6 at a concrete two-window state with a focused target. -/
theorem allocator_seed_and_increment_witness :
    ((idsOf sTwo.windows).Nodup ∧ wNotes ∈ sTwo.windows ∧ wNotes.id = "notes-1" ∧
      wNotes.isFocused = true) ∧
    focusedCount (focusWindow "notes-1" (focusWindow "notes-1" sTwo)).windows = 1 :=
  ⟨⟨by decide, by decide, by decide, by decide⟩,
    (allocator_seed_and_increment sTwo "notes-1" wNotes (by decide) (by decide)
      (by decide) (by decide)).2.2.2.2.2.2.2.2.2.1⟩

/-- C7: `maximize` applied twice to a present id restores the state exactly;
a single application keeps the counter and, record by record, every field
except possibly `isMaximized`. -/
theorem maximize_double_toggle (s : ManagerState) (id : String)
    (h : ∃ r ∈ s.windows, r.id = id) :
    maximizeWindow id (maximizeWindow id s) = s ∧
    (maximizeWindow id s).topZIndex = s.topZIndex ∧
    List.Forall₂ (fun w w' => w'.id = w.id ∧ w'.title = w.title ∧ w'.icon = w.icon ∧
        w'.x = w.x ∧ w'.y = w.y ∧ w'.width = w.width ∧ w'.height = w.height ∧
        w'.isMinimized = w.isMinimized ∧ w'.isFocused = w.isFocused ∧
        w'.zIndex = w.zIndex)
      s.windows (maximizeWindow id s).windows := by
  refine ⟨?_, rfl, ?_⟩
  · apply ManagerState.ext
    · simp only [maximizeWindow, List.map_map]
      have huu : ∀ w : WindowState,
          (fun v => if v.id = id then { v with isMaximized := !v.isMaximized } else v)
            ((fun v => if v.id = id then { v with isMaximized := !v.isMaximized } else v) w) =
          w := by
        intro w
        obtain ⟨wid, wtitle, wicon, wx, wy, ww, wh, wmin, wmax, wfoc, wz⟩ := w
        by_cases hid : wid = id
        · subst hid
          simp [Bool.not_not]
        · simp [hid]
      have hmap := List.map_congr_left (l := s.windows) (fun a _ => huu a)
      simpa using hmap
    · rfl
  · refine forall₂_map_self s.windows _ (fun a _ => ?_)
    by_cases hid : a.id = id <;> simp [hid]

/-- Witness for C7 at a concrete two-window state. -/
theorem maximize_double_toggle_witness :
    (∃ r ∈ sTwo.windows, r.id = "calc-1") ∧
    maximizeWindow "calc-1" (maximizeWindow "calc-1" sTwo) = sTwo :=
  ⟨by decide, (maximize_double_toggle sTwo "calc-1" (by decide)).1⟩

/-- C8: `close(id)` on a registry whose distinct ids contain `id` keeps the
counter, keeps every other record (with all its fields) in the collection,
adds nothing, and removes exactly the one record with that id. -/
theorem close_removes_only_target (s : ManagerState) (id : String) (r : WindowState)
    (hids : (idsOf s.windows).Nodup) (hr : r ∈ s.windows) (hrid : r.id = id) :
    (closeWindow id s).topZIndex = s.topZIndex ∧
    (∀ w ∈ s.windows, w.id ≠ id → w ∈ (closeWindow id s).windows) ∧
    (∀ w ∈ (closeWindow id s).windows, w ∈ s.windows ∧ w.id ≠ id) ∧
    r ∉ (closeWindow id s).windows ∧
    (closeWindow id s).windows.length + 1 = s.windows.length := by
  refine ⟨rfl, ?_, ?_, ?_, ?_⟩
  · intro w hw hwid
    exact List.mem_filter.mpr ⟨hw, by simpa using hwid⟩
  · intro w hw
    have h2 := List.mem_filter.mp hw
    exact ⟨h2.1, by simpa using h2.2⟩
  · intro hmem
    have h2 := List.mem_filter.mp hmem
    have h3 : r.id ≠ id := by simpa using h2.2
    exact h3 hrid
  · exact close_length s.windows id r hids hr hrid

/-- Witness for C8 at a concrete two-window state. -/
theorem close_removes_only_target_witness :
    ((idsOf sTwo.windows).Nodup ∧ wCalc ∈ sTwo.windows ∧ wCalc.id = "calc-1") ∧
    ((closeWindow "calc-1" sTwo).topZIndex = sTwo.topZIndex ∧
      (closeWindow "calc-1" sTwo).windows.length + 1 = sTwo.windows.length) :=
  ⟨⟨by decide, by decide, by decide⟩,
    ⟨(close_removes_only_target sTwo "calc-1" wCalc (by decide) (by decide) (by decide)).1,
      (close_removes_only_target sTwo "calc-1" wCalc (by decide) (by decide)
        (by decide)).2.2.2.2⟩⟩

/-- C10: `minimize` is idempotent on the registry state for a present id:
the second application changes neither the record collection nor the
counter. -/
theorem minimize_idempotent (s : ManagerState) (id : String)
    (h : ∃ r ∈ s.windows, r.id = id) :
    minimizeWindow id (minimizeWindow id s) = minimizeWindow id s := by
  apply ManagerState.ext
  · simp only [minimizeWindow, List.map_map]
    refine List.map_congr_left (fun a _ => ?_)
    by_cases hid : a.id = id
    · simp [hid]
    · simp [hid]
  · rfl

/-- Witness for C10 at a concrete two-window state. -/
theorem minimize_idempotent_witness :
    (∃ r ∈ sTwo.windows, r.id = "notes-1") ∧
    minimizeWindow "notes-1" (minimizeWindow "notes-1" sTwo) =
      minimizeWindow "notes-1" sTwo :=
  ⟨by decide, minimize_idempotent sTwo "notes-1" (by decide)⟩

/-- C9: every counter the registry operations emit carries a `window_type`
tag equal to the substring of the operation's id before the first `-`
separator, and an id containing no `-` yields the whole id as its type. -/
theorem counter_window_type_derivation :
    (∀ (s : ManagerState) (op : Op) (c : CounterEvent), c ∈ emittedCounters s op →
      c.window_type =
        String.mk ((Op.targetId op).data.takeWhile (fun ch => decide (ch ≠ '-')))) ∧
    (∀ id : String, (∀ ch ∈ id.data, ch ≠ '-') → windowType id = id) := by
  constructor
  · intro s op c hc
    cases op with
    | open_ spec =>
      simp only [emittedCounters] at hc
      split at hc <;> simp only [List.mem_singleton] at hc <;> subst hc <;>
        exact windowType_eq_takeWhile spec.id
    | close id =>
      simp only [emittedCounters] at hc
      split at hc
      · simp at hc
      · simp only [List.mem_singleton] at hc
        subst hc
        exact windowType_eq_takeWhile id
    | minimize id =>
      simp only [emittedCounters] at hc
      split at hc
      · simp at hc
      · simp only [List.mem_singleton] at hc
        subst hc
        exact windowType_eq_takeWhile id
    | maximize id =>
      simp only [emittedCounters] at hc
      split at hc
      · simp at hc
      · simp only [List.mem_singleton] at hc
        subst hc
        exact windowType_eq_takeWhile id
    | restore id => simp [emittedCounters] at hc
    | focus id => simp [emittedCounters] at hc
    | reposition id x y => simp [emittedCounters] at hc
    | resize id width height => simp [emittedCounters] at hc
  · intro id h
    rw [windowType_eq_takeWhile, takeWhile_eq_self_of_no_sep '-' id.data h]

/-- Witness for C9: the counter emitted by opening "notes-1" on the empty
registry is tagged with window type "notes". -/
theorem counter_window_type_derivation_witness :
    CounterEvent.mk "desktop.windows.opened" "notes" none ∈
      emittedCounters init (Op.open_ specNotes) ∧
    (CounterEvent.mk "desktop.windows.opened" "notes" none).window_type =
      String.mk ((Op.targetId (Op.open_ specNotes)).data.takeWhile
        (fun ch => decide (ch ≠ '-'))) :=
  ⟨by decide,
    counter_window_type_derivation.1 init (Op.open_ specNotes)
      (CounterEvent.mk "desktop.windows.opened" "notes" none) (by decide)⟩
